import Mathlib

/-!
Verification of the intent-to-recommendation pipeline of the
Location_Recommender_Agent repository.

The Python modules `src/ranking/scorer.py`, `src/agent/self_correction.py`,
`src/agent/slot_policy.py`, `src/agent/session_memory.py` and
`src/agent/intent_parser.py` are embedded shallowly below.  Python strings
become `String` / `List Char`, Python `None`-able values become `Option`,
Python floats become exact rationals (`ℚ`), and Python dictionaries holding a
fixed set of keys become structures with `Option` fields (so that
`dict.get(key, default)` is `field.getD default`).
-/

namespace LocationRecommender

/-- Truthiness of a Python optional-string value: `None` and `""` are falsy. -/
def pyTruthyS : Option String → Bool
  | none => false
  | some s => !(s == "")

/-- Python `a or b` on optional strings: returns `b` whenever `a` is falsy. -/
def pyOrStr (a b : Option String) : Option String :=
  match a with
  | none => b
  | some s => if s == "" then b else some s

/-- Python `str.lower()` restricted to the ASCII case mapping. -/
def pyLower (s : String) : String :=
  String.mk (s.data.map Char.toLower)

/-!
## Data model

`Candidate` embeds the per-turn candidate dictionary used by
`validate_candidates` (`src/agent/self_correction.py`) and the `_*_score`
helpers of `src/ranking/scorer.py`.  Only the keys those functions read are
modelled; a missing key is `none`.
-/

structure Candidate where
  destination : Option String := none
  estimated_flight_hours : Option ℚ := none
  max_temp : Option ℚ := none
  min_temp : Option ℚ := none
  rain : Option ℚ := none
  poi_count : Option ℚ := none
  sample_names : List String := []
  activity : Option String := none
  preferred_weather : Option String := none
deriving DecidableEq

/-- A `liked_profiles` entry (`{destination, activity, preferred_weather}`). -/
structure LikeProfile where
  destination : Option String := none
  activity : Option String := none
  preferred_weather : Option String := none
deriving DecidableEq

/-- `ParsedIntent` (dataclass in `src/agent/intent_parser.py`). -/
structure ParsedIntent where
  intent : String
  destination : Option String := none
  activity : Option String := none
  travel_date_or_month : Option String := none
  max_flight_hours : Option ℚ := none
  raw_text : String := ""
deriving DecidableEq

/-- `SessionMemory` (dataclass in `src/agent/session_memory.py`).  The Python
`rejected_destinations` set is modelled as a list whose membership relation is
the set's membership. -/
structure SessionMemory where
  origin_city : Option String := none
  origin_country : Option String := none
  preferred_weather : Option String := none
  rejected_destinations : List String := []
  liked_profiles : List LikeProfile := []
  last_destination : Option String := none
  last_travel_date_or_month : Option String := none
  last_activity : Option String := none
  last_max_flight_hours : Option ℚ := none
deriving DecidableEq

/-- The fresh memory created at session start (all dataclass defaults). -/
def initMemory : SessionMemory := {}

/-- Remove leading and trailing whitespace from a character list. -/
def stripWsList (l : List Char) : List Char :=
  ((l.dropWhile Char.isWhitespace).reverse.dropWhile Char.isWhitespace).reverse

/-- Python `str.strip()`: remove whitespace from both ends. -/
def pyStripWs (s : String) : String :=
  String.mk (stripWsList s.data)

/-- `SessionMemory.set_origin`: strips both arguments and assigns both fields. -/
def SessionMemory.set_origin (m : SessionMemory) (city country : String) : SessionMemory :=
  { m with origin_city := some (pyStripWs city), origin_country := some (pyStripWs country) }

/-- `SessionMemory.add_rejections`: adds the lowercase of every destination. -/
def SessionMemory.add_rejections (m : SessionMemory) (destinations : List String) : SessionMemory :=
  { m with rejected_destinations := m.rejected_destinations ++ destinations.map pyLower }

/-- `SessionMemory.add_like_profile`. -/
def SessionMemory.add_like_profile (m : SessionMemory) (profile : LikeProfile) : SessionMemory :=
  { m with liked_profiles := m.liked_profiles ++ [profile] }

/-- `SessionMemory.has_origin`: `bool(origin_city and origin_country)`. -/
def SessionMemory.has_origin (m : SessionMemory) : Bool :=
  pyTruthyS m.origin_city && pyTruthyS m.origin_country

/-- `SessionMemory.update_from_parsed`: each `last_*` field is overwritten only
when the corresponding parsed field is truthy (non-`None` for the float). -/
def SessionMemory.update_from_parsed (m : SessionMemory) (parsed : ParsedIntent) : SessionMemory :=
  { m with
    last_destination :=
      if pyTruthyS parsed.destination then parsed.destination else m.last_destination
    last_travel_date_or_month :=
      if pyTruthyS parsed.travel_date_or_month then parsed.travel_date_or_month
      else m.last_travel_date_or_month
    last_activity :=
      if pyTruthyS parsed.activity then parsed.activity else m.last_activity
    last_max_flight_hours :=
      if parsed.max_flight_hours.isSome then parsed.max_flight_hours
      else m.last_max_flight_hours }

/-- One mutation call on a `SessionMemory`. -/
inductive MemOp where
  | setOrigin (city country : String)
  | addRejections (destinations : List String)
  | addLikeProfile (profile : LikeProfile)
  | updateFromParsed (parsed : ParsedIntent)
deriving DecidableEq

/-- Apply one mutation method. -/
def applyMemOp (m : SessionMemory) : MemOp → SessionMemory
  | .setOrigin city country => m.set_origin city country
  | .addRejections ds => m.add_rejections ds
  | .addLikeProfile p => m.add_like_profile p
  | .updateFromParsed p => m.update_from_parsed p

/-- Apply a sequence of mutation methods, oldest first. -/
def applyMemOps (m : SessionMemory) (ops : List MemOp) : SessionMemory :=
  ops.foldl applyMemOp m

/-!
## `src/agent/self_correction.py` — `validate_candidates`
-/

/-- The lowercased name used by `validate_candidates`:
`candidate.get("destination", "").lower()`. -/
def candidateName (c : Candidate) : String :=
  pyLower (c.destination.getD "")

/-- One iteration of the `validate_candidates` loop: `true` when the candidate
is appended to `filtered` (it is neither rejected nor over the flight limit). -/
def keepCandidate (max_flight_hours : Option ℚ) (rejected : List String)
    (c : Candidate) : Bool :=
  if candidateName c ∈ rejected then false
  else
    match max_flight_hours with
    | none => true
    | some limit =>
      match c.estimated_flight_hours with
      | none => true
      | some est => !(limit < est)

/-- `validate_candidates(candidates, max_flight_hours, rejected_destinations)`
(the logger argument only emits log events and is dropped). -/
def validate_candidates (candidates : List Candidate) (max_flight_hours : Option ℚ)
    (rejected_destinations : List String) : List Candidate :=
  candidates.filter (keepCandidate max_flight_hours rejected_destinations)

/-!
## `src/agent/slot_policy.py`
-/

/-- `REQUIRED_SLOTS_BY_INTENT` with the dictionary lookup's `[]` default. -/
def REQUIRED_SLOTS_BY_INTENT (intent : String) : List String :=
  if intent == "destination_opinion" then ["destination", "travel_date_or_month"]
  else if intent == "activity_based_discovery" then ["activity", "travel_date_or_month"]
  else if intent == "constraint_based_discovery" then ["travel_date_or_month"]
  else []

/-- `getattr(parsed_intent, slot, None) in (None, "")`: the slot's value is
`None` or the empty string.  An unknown slot name reads as `None`, hence
missing; the float-valued `max_flight_hours` is missing exactly when `None`. -/
def slotIsMissing (p : ParsedIntent) (slot : String) : Bool :=
  if slot == "destination" then !(pyTruthyS p.destination)
  else if slot == "activity" then !(pyTruthyS p.activity)
  else if slot == "travel_date_or_month" then !(pyTruthyS p.travel_date_or_month)
  else if slot == "max_flight_hours" then p.max_flight_hours.isNone
  else true

/-- `missing_slots(parsed_intent)`. -/
def missing_slots (p : ParsedIntent) : List String :=
  let required := REQUIRED_SLOTS_BY_INTENT p.intent
  let required :=
    if p.max_flight_hours == some (-1) then required.filter (fun slot => slot ≠ "max_flight_hours")
    else required
  required.filter (slotIsMissing p)

/-- `next_clarifying_question(missing)`. -/
def next_clarifying_question (missing : List String) : String :=
  match missing with
  | [] => ""
  | slot :: _ =>
    if slot == "travel_date_or_month" then "What date or month are you planning to travel?"
    else if slot == "destination" then "Which destination are you considering?"
    else if slot == "activity" then "Which activity are you most interested in?"
    else if slot == "max_flight_hours" then "What is your maximum flight duration in hours?"
    else "Could you provide: " ++ slot ++ "?"

/-- `should_ask_weather_preference(parsed_intent, preferred_weather)`. -/
def should_ask_weather_preference (p : ParsedIntent) (preferred_weather : Option String) : Bool :=
  if pyTruthyS preferred_weather then false
  else
    match p.activity with
    | none => true
    | some a => if (!(a == "")) && (pyLower a == "skiing") then false else true

/-!
## `src/ranking/scorer.py`
-/

/-- `_activity_score(candidate, activity, season)`. -/
def activityScore (c : Candidate) (activity : Option String) (season : String) : ℚ :=
  let poi_count := c.poi_count.getD 0
  let base := min 40 (poi_count / 5)
  match activity with
  | none => base
  | some a =>
    if a == "" then base
    else if pyLower a == "skiing" then
      if season == "winter" then min 40 (base + 12) else max 5 (base - 15)
    else base

/-- `_weather_score(candidate, preferred_weather)`. -/
def weatherScore (c : Candidate) (preferred_weather : Option String) : ℚ :=
  let max_temp := c.max_temp.getD 24
  let min_temp := c.min_temp.getD 14
  let rain := c.rain.getD 0
  let avg := (max_temp + min_temp) / 2
  let score := 20 - min 10 (rain * (6 / 5))
  let pref := pyLower ((pyOrStr preferred_weather (some "no_preference")).getD "no_preference")
  let score :=
    if pref == "cold" then score + max 0 (10 - |avg - 8|)
    else if pref == "mild" then score + max 0 (10 - |avg - 18|)
    else if pref == "warm" then score + max 0 (10 - |avg - 27|)
    else score + 6
  max 0 (min 30 score)

/-- `_flight_score(candidate, max_flight_hours)`. -/
def flightScore (c : Candidate) (max_flight_hours : Option ℚ) : ℚ :=
  match c.estimated_flight_hours with
  | none => 8
  | some est =>
    match max_flight_hours with
    | none => max 0 (min 20 (20 - est * (8 / 5)))
    | some limit =>
      if est ≤ limit then 20 else max 0 (20 - (est - limit) * 8)

/-- `_diversity_score(candidate)`: `len(set(sample_names))` is the number of
distinct sample names. -/
def diversityScore (c : Candidate) : ℚ :=
  min 10 (5 + (c.sample_names.dedup.length : ℚ) / 2)

/-- `_like_similarity_bonus(candidate, liked_profiles)`.  Python compares the
possibly-missing dictionary entries with `==`, under which `None == None` is
true; `Option` equality has the same behaviour. -/
def likeBonus (c : Candidate) (liked_profiles : List LikeProfile) : ℚ :=
  match liked_profiles with
  | [] => 0
  | _ =>
    if liked_profiles.any (fun p =>
        p.activity == c.activity || p.preferred_weather == c.preferred_weather)
    then 3 else 0

/-- The value stored under `candidate["score_breakdown"]`. -/
structure ScoreBreakdown where
  activity_fit : ℚ
  weather_fit : ℚ
  flight_feasibility : ℚ
  diversity_novelty : ℚ
  like_bonus : ℚ
  total : ℚ
deriving DecidableEq

/-- A candidate after `score_candidate` has attached `score` and
`score_breakdown`. -/
structure ScoredCandidate where
  base : Candidate
  score_breakdown : ScoreBreakdown
  score : ℚ
deriving DecidableEq

/-- `score_candidate(candidate, activity, preferred_weather, max_flight_hours,
season, liked_profiles)`. -/
def score_candidate (c : Candidate) (activity preferred_weather : Option String)
    (max_flight_hours : Option ℚ) (season : String)
    (liked_profiles : List LikeProfile) : ScoredCandidate :=
  let activity_fit := activityScore c activity season
  let weather_fit := weatherScore c preferred_weather
  let flight_fit := flightScore c max_flight_hours
  let diversity := diversityScore c
  let like_bonus := likeBonus c liked_profiles
  let total := activity_fit + weather_fit + flight_fit + diversity + like_bonus
  { base := c
    score_breakdown :=
      { activity_fit := activity_fit
        weather_fit := weather_fit
        flight_feasibility := flight_fit
        diversity_novelty := diversity
        like_bonus := like_bonus
        total := total }
    score := total }

/-!
## Claims about `validate_candidates`
-/

/-- A concrete candidate with a known flight-hours estimate, used to exhibit
the behaviour of `validate_candidates` under the `-1` sentinel. -/
def lisbonCandidate : Candidate :=
  { destination := some "lisbon", estimated_flight_hours := some 3 }

/-- C1: the code violates the claim.  `validate_candidates` has no special
case for the "no limit" sentinel `-1`, so `-1` is treated as an actual limit:
a candidate whose numeric `estimated_flight_hours` is `3` is excluded
(`3 > -1`), whereas passing `None` keeps it.  The spec's sentinel semantics
("-1 means explicitly no limit") demand that the two calls agree. -/
theorem C1_sentinel_filters_everything :
    validate_candidates [lisbonCandidate] (some (-1)) [] = []
      ∧ validate_candidates [lisbonCandidate] none [] = [lisbonCandidate] := by
  constructor <;> rfl

/-- C2: a candidate whose destination name lowercases to a member of a
rejection set built only through `SessionMemory.add_rejections` is always
absent from the output of `validate_candidates`, whatever its other fields and
whatever the flight-hours limit. -/
theorem C2_rejected_always_excluded (batches : List (List String))
    (candidates : List Candidate) (max_flight_hours : Option ℚ) (c : Candidate)
    (hmem : candidateName c ∈
      (applyMemOps initMemory (batches.map MemOp.addRejections)).rejected_destinations) :
    c ∉ validate_candidates candidates max_flight_hours
      (applyMemOps initMemory (batches.map MemOp.addRejections)).rejected_destinations := by
  intro hout
  have hkeep := (List.mem_filter.mp hout).2
  unfold keepCandidate at hkeep
  rw [if_pos hmem] at hkeep
  exact Bool.false_ne_true hkeep

/-- Witness for C2 at concrete inputs: rejecting `"Paris"` excludes the
candidate named `"PARIS"` (case-insensitively), whatever its score data. -/
theorem C2_witness :
    ({ destination := some "PARIS", poi_count := some 500 } : Candidate) ∉
      validate_candidates
        [{ destination := some "PARIS", poi_count := some 500 }, lisbonCandidate] none
        (applyMemOps initMemory ([[ "Paris" ]].map MemOp.addRejections)).rejected_destinations :=
  C2_rejected_always_excluded [["Paris"]]
    [{ destination := some "PARIS", poi_count := some 500 }, lisbonCandidate] none
    { destination := some "PARIS", poi_count := some 500 } (by decide)

/-!
## Claims about the scorer
-/

/-- C5: with a numeric estimate and a numeric limit, `_flight_score` returns
exactly `20` when the estimate is within the limit, and
`max(0, 20 - 8 * (est - limit))` when it exceeds it by `est - limit` hours. -/
theorem C5_flight_score_characterization (c : Candidate) (est limit : ℚ)
    (h : c.estimated_flight_hours = some est) :
    (est ≤ limit → flightScore c (some limit) = 20)
      ∧ (limit < est → flightScore c (some limit) = max 0 (20 - (est - limit) * 8)) := by
  constructor
  · intro hle
    simp only [flightScore, h, if_pos hle]
  · intro hlt
    simp only [flightScore, h, if_neg (not_le.mpr hlt)]

/-- Witness for C5: estimate 5 within limit 6 scores 20; estimate 8 over
limit 6 scores `max 0 (20 - (8-6)*8) = 4`. -/
theorem C5_witness :
    flightScore { estimated_flight_hours := some 5 } (some 6) = 20
      ∧ flightScore { estimated_flight_hours := some 8 } (some 6) = max 0 (20 - (8 - 6) * 8) :=
  ⟨(C5_flight_score_characterization { estimated_flight_hours := some 5 } 5 6 rfl).1 (by norm_num),
   (C5_flight_score_characterization { estimated_flight_hours := some 8 } 8 6 rfl).2 (by norm_num)⟩

/-!
## Claims about the slot policy
-/

/-- A Python optional string is truthy exactly when it is neither `None` nor
the empty string. -/
lemma pyTruthyS_eq_true_iff (v : Option String) :
    pyTruthyS v = true ↔ (v ≠ none ∧ v ≠ some "") := by
  cases v with
  | none => simp [pyTruthyS]
  | some s => simp [pyTruthyS]

/-- Spec-side reading of "has a value that is neither None nor the empty
string". -/
def slotFilled (v : Option String) : Prop := v ≠ none ∧ v ≠ some ""

/-- C8: `should_ask_weather_preference` returns `False` exactly when a weather
preference is already stored (non-null, non-empty — any value, including
`"no_preference"`) or the parsed activity lowercases to `"skiing"`; in every
other case it returns `True`. -/
theorem C8_weather_gate (p : ParsedIntent) (preferred_weather : Option String) :
    should_ask_weather_preference p preferred_weather = false ↔
      ((∃ s, preferred_weather = some s ∧ s ≠ "")
        ∨ (∃ a, p.activity = some a ∧ a ≠ "" ∧ pyLower a = "skiing")) := by
  unfold should_ask_weather_preference
  by_cases hw : pyTruthyS preferred_weather = true
  · obtain ⟨h1, h2⟩ := (pyTruthyS_eq_true_iff preferred_weather).mp hw
    rw [if_pos hw]
    cases preferred_weather with
    | none => exact absurd rfl h1
    | some s =>
      exact iff_of_true rfl (Or.inl ⟨s, rfl, fun he => h2 (by rw [he])⟩)
  · rw [if_neg hw]
    have hw' : preferred_weather = none ∨ preferred_weather = some "" := by
      cases preferred_weather with
      | none => exact Or.inl rfl
      | some s =>
        refine Or.inr ?_
        by_contra hne
        exact hw ((pyTruthyS_eq_true_iff (some s)).mpr ⟨by simp, by simpa using fun h => hne (by rw [h])⟩)
    have hleft : ¬ (∃ s, preferred_weather = some s ∧ s ≠ "") := by
      rintro ⟨s, hs, hne⟩
      rcases hw' with h | h
      · rw [h] at hs; exact Option.noConfusion hs
      · rw [h] at hs; exact hne (Option.some.inj hs).symm
    cases hact : p.activity with
    | none => simp [hleft]
    | some a =>
      by_cases ha : a = ""
      · subst ha
        simp [hleft]
      · by_cases hs : pyLower a = "skiing"
        · simp [ha, hs, hleft]
        · simp [ha, hs, hleft]

/-- C3: for each of the three allowed intents, `missing_slots` is empty
exactly when every slot in that intent's required-slot table entry is filled
(non-null, non-empty), and the returned slots are a sublist of the table entry
(hence appear in table order).  The theorem quantifies over every
`max_flight_hours` value, so it covers the `-1` sentinel exemption — removing
`"max_flight_hours"` from a table entry that never contains it changes
nothing. -/
theorem C3_missing_slots_characterization (p : ParsedIntent)
    (h : p.intent = "destination_opinion" ∨ p.intent = "activity_based_discovery"
          ∨ p.intent = "constraint_based_discovery") :
    ((p.intent = "destination_opinion" →
        (missing_slots p = [] ↔ slotFilled p.destination ∧ slotFilled p.travel_date_or_month))
      ∧ (p.intent = "activity_based_discovery" →
        (missing_slots p = [] ↔ slotFilled p.activity ∧ slotFilled p.travel_date_or_month))
      ∧ (p.intent = "constraint_based_discovery" →
        (missing_slots p = [] ↔ slotFilled p.travel_date_or_month)))
    ∧ (missing_slots p).Sublist (REQUIRED_SLOTS_BY_INTENT p.intent) := by
  have hsub : (missing_slots p).Sublist (REQUIRED_SLOTS_BY_INTENT p.intent) := by
    simp only [missing_slots]
    by_cases hmx : (p.max_flight_hours == some (-1)) = true
    · rw [if_pos hmx]
      exact (List.filter_sublist _).trans (List.filter_sublist _)
    · rw [if_neg hmx]
      exact List.filter_sublist _
  refine ⟨⟨?_, ?_, ?_⟩, hsub⟩ <;> intro hi <;>
    simp only [missing_slots, REQUIRED_SLOTS_BY_INTENT, hi, slotIsMissing, slotFilled] <;>
    rcases hmx : p.max_flight_hours == some (-1) <;>
    simp [List.filter_eq_nil_iff, slotIsMissing, pyTruthyS_eq_true_iff, slotFilled,
      and_comm, and_assoc]

/-- A concrete fully-filled `destination_opinion` intent for the C3 witness. -/
def romeOpinionIntent : ParsedIntent :=
  { intent := "destination_opinion", destination := some "rome",
    travel_date_or_month := some "july" }

/-- Witness for C3 at a concrete parsed intent: `destination_opinion` with both
required slots present has no missing slots; its missing list is in table
order. -/
theorem C3_witness :
    ((romeOpinionIntent.intent = "destination_opinion" →
        (missing_slots romeOpinionIntent = [] ↔
          slotFilled romeOpinionIntent.destination
            ∧ slotFilled romeOpinionIntent.travel_date_or_month))
      ∧ (romeOpinionIntent.intent = "activity_based_discovery" →
        (missing_slots romeOpinionIntent = [] ↔
          slotFilled romeOpinionIntent.activity
            ∧ slotFilled romeOpinionIntent.travel_date_or_month))
      ∧ (romeOpinionIntent.intent = "constraint_based_discovery" →
        (missing_slots romeOpinionIntent = [] ↔
          slotFilled romeOpinionIntent.travel_date_or_month)))
    ∧ (missing_slots romeOpinionIntent).Sublist
        (REQUIRED_SLOTS_BY_INTENT romeOpinionIntent.intent) :=
  C3_missing_slots_characterization romeOpinionIntent (Or.inl rfl)

/-!
## Monotonicity and bounds of the scorer
-/

/-- C4: the scoring terms are monotone in their driving signals.  Raising
`poi_count` (all other candidate fields fixed) never lowers `_activity_score`,
for every activity and season; raising `rain` (all other fields fixed) never
raises `_weather_score`, for every preferred-weather value. -/
theorem C4_score_monotonicity :
    (∀ (c : Candidate) (activity : Option String) (season : String) (p1 p2 : ℚ),
      p1 ≤ p2 →
        activityScore { c with poi_count := some p1 } activity season
          ≤ activityScore { c with poi_count := some p2 } activity season)
    ∧ (∀ (c : Candidate) (preferred_weather : Option String) (r1 r2 : ℚ),
      r1 ≤ r2 →
        weatherScore { c with rain := some r2 } preferred_weather
          ≤ weatherScore { c with rain := some r1 } preferred_weather) := by
  constructor
  · intro c activity season p1 p2 hp
    have hbase : min 40 (p1 / 5) ≤ min 40 (p2 / 5) :=
      min_le_min le_rfl (by linarith)
    cases activity with
    | none => simpa only [activityScore, Option.getD_some] using hbase
    | some a =>
      simp only [activityScore, Option.getD_some]
      by_cases ha : (a == "") = true
      · rw [if_pos ha, if_pos ha]; exact hbase
      · rw [if_neg ha, if_neg ha]
        by_cases hs : (pyLower a == "skiing") = true
        · rw [if_pos hs, if_pos hs]
          by_cases hw : (season == "winter") = true
          · rw [if_pos hw, if_pos hw]
            exact min_le_min le_rfl (by linarith)
          · rw [if_neg hw, if_neg hw]
            exact max_le_max le_rfl (by linarith)
        · rw [if_neg hs, if_neg hs]; exact hbase
  · intro c preferred_weather r1 r2 hr
    have hmin : min 10 (r1 * (6 / 5)) ≤ min 10 (r2 * (6 / 5)) :=
      min_le_min le_rfl (by linarith)
    simp only [weatherScore, Option.getD_some]
    by_cases h1 : (pyLower ((pyOrStr preferred_weather (some "no_preference")).getD
        "no_preference") == "cold") = true
    · rw [if_pos h1, if_pos h1]
      exact max_le_max le_rfl (min_le_min le_rfl (by linarith))
    · rw [if_neg h1, if_neg h1]
      by_cases h2 : (pyLower ((pyOrStr preferred_weather (some "no_preference")).getD
          "no_preference") == "mild") = true
      · rw [if_pos h2, if_pos h2]
        exact max_le_max le_rfl (min_le_min le_rfl (by linarith))
      · rw [if_neg h2, if_neg h2]
        by_cases h3 : (pyLower ((pyOrStr preferred_weather (some "no_preference")).getD
            "no_preference") == "warm") = true
        · rw [if_pos h3, if_pos h3]
          exact max_le_max le_rfl (min_le_min le_rfl (by linarith))
        · rw [if_neg h3, if_neg h3]
          exact max_le_max le_rfl (min_le_min le_rfl (by linarith))

/-- Witness for C4: with 100 vs 150 points of interest the skiing/winter
activity term does not decrease, and with 2mm vs 10mm of rain the warm-weather
term does not increase. -/
theorem C4_witness :
    activityScore { poi_count := some 100 } (some "skiing") "winter"
        ≤ activityScore { poi_count := some 150 } (some "skiing") "winter"
      ∧ weatherScore { rain := some 10 } (some "warm")
        ≤ weatherScore { rain := some 2 } (some "warm") :=
  ⟨C4_score_monotonicity.1 {} (some "skiing") "winter" 100 150 (by norm_num),
   C4_score_monotonicity.2 {} (some "warm") 2 10 (by norm_num)⟩

/-- The activity term lies in `[0, 40]` when the candidate's `poi_count` is a
non-negative number. -/
lemma activityScore_bounds (c : Candidate) (activity : Option String) (season : String)
    (p : ℚ) (hp : c.poi_count = some p) (hp0 : 0 ≤ p) :
    0 ≤ activityScore c activity season ∧ activityScore c activity season ≤ 40 := by
  have hb0 : (0 : ℚ) ≤ min 40 (p / 5) := le_min (by norm_num) (by positivity)
  have hb40 : min 40 (p / 5) ≤ 40 := min_le_left _ _
  cases activity with
  | none =>
    simp only [activityScore, hp, Option.getD_some]
    exact ⟨hb0, hb40⟩
  | some a =>
    simp only [activityScore, hp, Option.getD_some]
    by_cases ha : (a == "") = true
    · rw [if_pos ha]; exact ⟨hb0, hb40⟩
    · rw [if_neg ha]
      by_cases hs : (pyLower a == "skiing") = true
      · rw [if_pos hs]
        by_cases hw : (season == "winter") = true
        · rw [if_pos hw]
          exact ⟨le_min (by norm_num) (by linarith), min_le_left _ _⟩
        · rw [if_neg hw]
          exact ⟨le_trans (by norm_num) (le_max_left _ _),
            max_le (by norm_num) (by linarith)⟩
      · rw [if_neg hs]; exact ⟨hb0, hb40⟩

/-- The weather term is always clamped into `[0, 30]`. -/
lemma weatherScore_bounds (c : Candidate) (preferred_weather : Option String) :
    0 ≤ weatherScore c preferred_weather ∧ weatherScore c preferred_weather ≤ 30 := by
  simp only [weatherScore]
  exact ⟨le_max_left _ _, max_le (by norm_num) (min_le_left _ _)⟩

/-- The flight term is always in `[0, 20]`. -/
lemma flightScore_bounds (c : Candidate) (max_flight_hours : Option ℚ) :
    0 ≤ flightScore c max_flight_hours ∧ flightScore c max_flight_hours ≤ 20 := by
  simp only [flightScore]
  cases c.estimated_flight_hours with
  | none => norm_num
  | some est =>
    cases max_flight_hours with
    | none => exact ⟨le_max_left _ _, max_le (by norm_num) (min_le_left _ _)⟩
    | some limit =>
      show 0 ≤ (if est ≤ limit then (20 : ℚ) else max 0 (20 - (est - limit) * 8))
        ∧ (if est ≤ limit then (20 : ℚ) else max 0 (20 - (est - limit) * 8)) ≤ 20
      by_cases hle : est ≤ limit
      · rw [if_pos hle]; norm_num
      · rw [if_neg hle]
        have : limit < est := not_le.mp hle
        exact ⟨le_max_left _ _, max_le (by norm_num) (by nlinarith)⟩

/-- The diversity term is always in `[5, 10]`. -/
lemma diversityScore_bounds (c : Candidate) :
    5 ≤ diversityScore c ∧ diversityScore c ≤ 10 := by
  simp only [diversityScore]
  have hn : (0 : ℚ) ≤ (c.sample_names.dedup.length : ℚ) := Nat.cast_nonneg _
  exact ⟨le_min (by norm_num) (by linarith), min_le_left _ _⟩

/-- The like bonus is `0` or `3`. -/
lemma likeBonus_cases (c : Candidate) (liked_profiles : List LikeProfile) :
    likeBonus c liked_profiles = 0 ∨ likeBonus c liked_profiles = 3 := by
  simp only [likeBonus]
  cases liked_profiles with
  | nil => exact Or.inl rfl
  | cons p ps =>
    by_cases h : ((p :: ps).any fun q =>
        q.activity == c.activity || q.preferred_weather == c.preferred_weather) = true
    · rw [if_pos h]; exact Or.inr rfl
    · rw [if_neg h]; exact Or.inl rfl

/-- C10: `score_candidate` stores the same total under `score` and under
`score_breakdown["total"]`; that total is the exact sum of the five terms, and
for candidates with non-negative `poi_count` and `rain` every term respects
its advertised bound, so the total lies in `[0, 103]`. -/
theorem C10_score_total_and_bounds (c : Candidate) (p r : ℚ)
    (activity preferred_weather : Option String) (max_flight_hours : Option ℚ)
    (season : String) (liked_profiles : List LikeProfile)
    (hp : c.poi_count = some p) (hp0 : 0 ≤ p)
    (hr : c.rain = some r) (hr0 : 0 ≤ r) :
    (score_candidate c activity preferred_weather max_flight_hours season
        liked_profiles).score =
      (score_candidate c activity preferred_weather max_flight_hours season
        liked_profiles).score_breakdown.total
    ∧ (score_candidate c activity preferred_weather max_flight_hours season
        liked_profiles).score_breakdown.total =
      activityScore c activity season + weatherScore c preferred_weather
        + flightScore c max_flight_hours + diversityScore c
        + likeBonus c liked_profiles
    ∧ 0 ≤ (score_candidate c activity preferred_weather max_flight_hours season
        liked_profiles).score
    ∧ (score_candidate c activity preferred_weather max_flight_hours season
        liked_profiles).score ≤ 103
    ∧ (0 ≤ activityScore c activity season ∧ activityScore c activity season ≤ 40)
    ∧ (0 ≤ weatherScore c preferred_weather ∧ weatherScore c preferred_weather ≤ 30)
    ∧ (0 ≤ flightScore c max_flight_hours ∧ flightScore c max_flight_hours ≤ 20)
    ∧ (5 ≤ diversityScore c ∧ diversityScore c ≤ 10)
    ∧ (likeBonus c liked_profiles = 0 ∨ likeBonus c liked_profiles = 3) := by
  obtain ⟨ha0, ha40⟩ := activityScore_bounds c activity season p hp hp0
  obtain ⟨hw0, hw30⟩ := weatherScore_bounds c preferred_weather
  obtain ⟨hf0, hf20⟩ := flightScore_bounds c max_flight_hours
  obtain ⟨hd5, hd10⟩ := diversityScore_bounds c
  have hl := likeBonus_cases c liked_profiles
  have hl0 : 0 ≤ likeBonus c liked_profiles := by rcases hl with h | h <;> rw [h] <;> norm_num
  have hl3 : likeBonus c liked_profiles ≤ 3 := by rcases hl with h | h <;> rw [h] <;> norm_num
  refine ⟨rfl, rfl, ?_, ?_, ⟨ha0, ha40⟩, ⟨hw0, hw30⟩, ⟨hf0, hf20⟩, ⟨hd5, hd10⟩, hl⟩
  · show (0 : ℚ) ≤ activityScore c activity season + weatherScore c preferred_weather
      + flightScore c max_flight_hours + diversityScore c + likeBonus c liked_profiles
    linarith
  · show activityScore c activity season + weatherScore c preferred_weather
      + flightScore c max_flight_hours + diversityScore c + likeBonus c liked_profiles ≤ 103
    linarith

/-- A concrete candidate for the C10 witness. -/
def hikingCandidate : Candidate :=
  { poi_count := some 120, rain := some 3, sample_names := ["museum", "park"] }

/-- Witness for C10 at a concrete candidate and scoring context. -/
theorem C10_witness :
    (score_candidate hikingCandidate (some "hiking") (some "warm") (some 6)
        "summer" []).score =
      (score_candidate hikingCandidate (some "hiking") (some "warm") (some 6)
        "summer" []).score_breakdown.total
    ∧ 0 ≤ (score_candidate hikingCandidate (some "hiking") (some "warm") (some 6)
        "summer" []).score
    ∧ (score_candidate hikingCandidate (some "hiking") (some "warm") (some 6)
        "summer" []).score ≤ 103 := by
  have h := C10_score_total_and_bounds hikingCandidate
    120 3 (some "hiking") (some "warm") (some 6) "summer" []
    rfl (by norm_num) rfl (by norm_num)
  exact ⟨h.1, h.2.2.1, h.2.2.2.1⟩

/-!
## Claims about `SessionMemory`
-/

/-- Spec-side: the origin is fully set — both fields assigned and non-empty. -/
def originFullySet (m : SessionMemory) : Prop :=
  m.origin_city ≠ none ∧ m.origin_city ≠ some ""
    ∧ m.origin_country ≠ none ∧ m.origin_country ≠ some ""

/-- Spec-side: the origin is fully unset — neither field assigned. -/
def originFullyUnset (m : SessionMemory) : Prop :=
  m.origin_city = none ∧ m.origin_country = none

instance (m : SessionMemory) : Decidable (originFullySet m) := by
  unfold originFullySet; infer_instance

instance (m : SessionMemory) : Decidable (originFullyUnset m) := by
  unfold originFullyUnset; infer_instance

/-- C9 fails as stated: `set_origin` strips its arguments, and a whitespace-only
city with a real country leaves the origin partially set — `origin_city` is the
(assigned) empty string while `origin_country` is non-empty, so the reachable
state is neither fully set nor fully unset. -/
theorem C9_counterexample :
    ¬ (originFullySet (applyMemOps initMemory [MemOp.setOrigin " " "france"])
        ∨ originFullyUnset (applyMemOps initMemory [MemOp.setOrigin " " "france"])) := by
  decide

/-- Every mutation method keeps "both origin fields assigned or neither". -/
lemma applyMemOps_origin_none_iff (ops : List MemOp) (m : SessionMemory)
    (h : m.origin_city = none ↔ m.origin_country = none) :
    (applyMemOps m ops).origin_city = none ↔ (applyMemOps m ops).origin_country = none := by
  induction ops generalizing m with
  | nil => exact h
  | cons op ops ih =>
    cases op with
    | setOrigin city country =>
      exact ih _ (by simp [applyMemOp, SessionMemory.set_origin])
    | addRejections ds => exact ih _ h
    | addLikeProfile p => exact ih _ h
    | updateFromParsed p => exact ih _ h

/-- When every `set_origin` call in the trace passes arguments that strip to
non-empty strings, the origin invariant is preserved. -/
lemma applyMemOps_origin_total (ops : List MemOp) (m : SessionMemory)
    (hm : originFullySet m ∨ originFullyUnset m)
    (hops : ∀ city country, MemOp.setOrigin city country ∈ ops →
      pyStripWs city ≠ "" ∧ pyStripWs country ≠ "") :
    originFullySet (applyMemOps m ops) ∨ originFullyUnset (applyMemOps m ops) := by
  induction ops generalizing m with
  | nil => exact hm
  | cons op ops ih =>
    have hops' : ∀ city country, MemOp.setOrigin city country ∈ ops →
        pyStripWs city ≠ "" ∧ pyStripWs country ≠ "" :=
      fun city country hmem => hops city country (List.mem_cons_of_mem _ hmem)
    cases op with
    | setOrigin city country =>
      obtain ⟨hc, hk⟩ := hops city country (List.mem_cons_self _ _)
      refine ih _ (Or.inl ?_) hops'
      refine ⟨by simp [applyMemOp, SessionMemory.set_origin], ?_,
        by simp [applyMemOp, SessionMemory.set_origin], ?_⟩
      · simp only [applyMemOp, SessionMemory.set_origin]
        exact fun hcontra => hc (Option.some.inj hcontra)
      · simp only [applyMemOp, SessionMemory.set_origin]
        exact fun hcontra => hk (Option.some.inj hcontra)
    | addRejections ds => exact ih _ (by simpa [applyMemOp, SessionMemory.add_rejections,
        originFullySet, originFullyUnset] using hm) hops'
    | addLikeProfile p => exact ih _ (by simpa [applyMemOp, SessionMemory.add_like_profile,
        originFullySet, originFullyUnset] using hm) hops'
    | updateFromParsed p => exact ih _ (by simpa [applyMemOp, SessionMemory.update_from_parsed,
        originFullySet, originFullyUnset] using hm) hops'

/-- C9 amended: in every memory reachable from the initial state,
`origin_city` and `origin_country` are both assigned or both unassigned (they
are never assigned separately); and under the additional assumption that every
`set_origin` call in the trace received arguments that strip to non-empty
strings, the origin is either fully set (both non-empty) or fully unset. -/
theorem C9_origin_invariant_amended (ops : List MemOp) :
    ((applyMemOps initMemory ops).origin_city = none
        ↔ (applyMemOps initMemory ops).origin_country = none)
    ∧ ((∀ city country, MemOp.setOrigin city country ∈ ops →
          pyStripWs city ≠ "" ∧ pyStripWs country ≠ "") →
        originFullySet (applyMemOps initMemory ops)
          ∨ originFullyUnset (applyMemOps initMemory ops)) :=
  ⟨applyMemOps_origin_none_iff ops initMemory (by simp [initMemory]),
   fun hops => applyMemOps_origin_total ops initMemory (Or.inr ⟨rfl, rfl⟩) hops⟩

/-- Witness for C9 at a concrete trace whose `set_origin` arguments are
non-blank. -/
theorem C9_witness :
    (((applyMemOps initMemory [MemOp.setOrigin "tel aviv" "israel"]).origin_city = none
        ↔ (applyMemOps initMemory [MemOp.setOrigin "tel aviv" "israel"]).origin_country = none)
      ∧ (originFullySet (applyMemOps initMemory [MemOp.setOrigin "tel aviv" "israel"])
          ∨ originFullyUnset (applyMemOps initMemory [MemOp.setOrigin "tel aviv" "israel"]))) := by
  have h := C9_origin_invariant_amended [MemOp.setOrigin "tel aviv" "israel"]
  refine ⟨h.1, h.2 ?_⟩
  intro city country hmem
  rw [List.mem_singleton] at hmem
  cases hmem
  exact ⟨by decide, by decide⟩

/-!
## `src/agent/intent_parser.py` — the rule-based parse

`IntentParser._parse_with_rules` and its helpers are embedded below.  The
handful of regular expressions the Python code uses are modelled directly as
recursive functions over `List Char` with Python's leftmost-match,
greedy-with-backtracking semantics spelled out for each concrete pattern.
Character classes are the ASCII ones the inputs use (`\s` is modelled by
`Char.isWhitespace`, `\w` by letters, digits and underscore).
-/

/-- Python `\w`: a word character (ASCII letters, digits, underscore). -/
def isWordChar (c : Char) : Bool := c.isAlpha || c.isDigit || c == '_'

/-- Python's `needle in hay` substring test. -/
def hasSubstr (hay needle : List Char) : Bool :=
  match hay with
  | [] => needle.isEmpty
  | _ :: t => needle.isPrefixOf hay || hasSubstr t needle

/-- Python `str.strip(chars)`: remove the given characters from both ends. -/
def stripSetChars (set : List Char) (l : List Char) : List Char :=
  ((l.dropWhile set.contains).reverse.dropWhile set.contains).reverse

/-- The `\s*([^|]+)` tail of the tag patterns, matched at a fixed position:
greedy whitespace, then at least one non-`|` character.  When everything after
the whitespace is `|` (or the end), the regex engine backtracks one whitespace
character into the capture. -/
def tagValueTail (rest : List Char) : Option (List Char) :=
  match rest.dropWhile Char.isWhitespace with
  | [] =>
    match (rest.takeWhile Char.isWhitespace).getLast? with
    | none => none
    | some w => some [w]
  | c :: cs =>
    if c = '|' then
      match (rest.takeWhile Char.isWhitespace).getLast? with
      | none => none
      | some w => some [w]
    else some ((c :: cs).takeWhile (fun a => a ≠ '|'))

/-- `re.search(lit + r"\s*([^|]+)", text)`: try the pattern at every position
from the left; at each occurrence of the literal, match the value tail. -/
def searchTagged (lit : List Char) : List Char → Option (List Char)
  | [] => none
  | c :: cs =>
    if lit.isPrefixOf (c :: cs) then
      match tagValueTail ((c :: cs).drop lit.length) with
      | some cap => some cap
      | none => searchTagged lit cs
    else searchTagged lit cs

/-- Digits of a decimal numeral, most significant first. -/
def digitsToNat (l : List Char) : Nat :=
  l.foldl (fun n c => n * 10 + (c.toNat - '0'.toNat)) 0

/-- Python `float(value)` on the decimal numerals that tag values produce:
optional sign, digits, optional fractional part (scientific notation,
`inf`/`nan` and underscores are outside the shapes this code ever passes in
and are rejected, matching the `except ValueError` path). -/
def parsePyFloat (s : String) : Option ℚ :=
  let signed : ℚ × List Char :=
    match s.data with
    | '-' :: t => (-1, t)
    | '+' :: t => (1, t)
    | l => (1, l)
  let intPart := signed.2.takeWhile Char.isDigit
  let rest := signed.2.dropWhile Char.isDigit
  match rest with
  | [] =>
    if intPart = [] then none else some (signed.1 * (digitsToNat intPart : ℚ))
  | '.' :: t =>
    let fracPart := t.takeWhile Char.isDigit
    let rest2 := t.dropWhile Char.isDigit
    if rest2 = [] ∧ (intPart ≠ [] ∨ fracPart ≠ []) then
      some (signed.1 * ((digitsToNat intPart : ℚ)
        + (digitsToNat fracPart : ℚ) / (10 : ℚ) ^ fracPart.length))
    else none
  | _ => none

/-- The result of `IntentParser._extract_explicit_slots`. -/
structure ExplicitSlots where
  destination : Option String := none
  activity : Option String := none
  travel_date_or_month : Option String := none
  max_flight_hours : Option ℚ := none
deriving DecidableEq

/-- The `value.strip(" .,?")` cleanup applied to every tag capture. -/
def tagStrip (l : List Char) : List Char :=
  stripSetChars [' ', '.', ',', '?'] l

/-- `IntentParser._extract_explicit_slots(text)`: one `key:\s*([^|]+)` search
per slot; the captured value is stripped of `" .,?"`, and the
`max_flight_hours` value must parse as a float or the slot is skipped. -/
def extractExplicitSlots (text : List Char) : ExplicitSlots :=
  { destination := (searchTagged "destination:".data text).map
      (fun cap => String.mk (tagStrip cap))
    activity := (searchTagged "activity:".data text).map
      (fun cap => String.mk (tagStrip cap))
    travel_date_or_month := (searchTagged "travel_date_or_month:".data text).map
      (fun cap => String.mk (tagStrip cap))
    max_flight_hours := ((searchTagged "max_flight_hours:".data text).map
      (fun cap => String.mk (tagStrip cap))).bind parsePyFloat }

/-- The twelve month names of the date/destination patterns. -/
def monthNames : List String :=
  ["january", "february", "march", "april", "may", "june", "july", "august",
   "september", "october", "november", "december"]

/-- Is this maximal word run (case-insensitively) exactly a month name?  The
month alternation of `r"\b(january|...|december)\b"` consists of word
characters only, so a match is exactly a maximal word-character run equal to a
month name (the surrounding `\b` anchors are the run's edges). -/
def isMonthRun (run : List Char) : Bool :=
  monthNames.contains (String.mk (run.map Char.toLower))

/-- `re.sub(r"\b(january|...|december)\b", "", text, flags=IGNORECASE)`:
delete every maximal word-character run that spells a month name.  The `cur`
accumulator carries the word run being scanned. -/
def removeMonthsGo (cur : List Char) : List Char → List Char
  | [] => if isMonthRun cur then [] else cur
  | c :: cs =>
    if isWordChar c then removeMonthsGo (cur ++ [c]) cs
    else (if isMonthRun cur then [] else cur) ++ c :: removeMonthsGo [] cs

/-- Month-name removal over a whole text. -/
def removeMonths (l : List Char) : List Char := removeMonthsGo [] l

/-- Consume the `\s*[^|]+` tail of the travel-tag segment pattern (greedy with
the same one-character whitespace backtrack as `tagValueTail`), returning the
remainder of the text after the match, or `none` when the tail cannot match. -/
def travelSegConsume (rest : List Char) : Option (List Char) :=
  match rest.dropWhile Char.isWhitespace with
  | [] =>
    if rest = [] then none else some []
  | c :: cs =>
    if c = '|' then
      if (rest.takeWhile Char.isWhitespace) = [] then none else some (c :: cs)
    else some ((c :: cs).dropWhile (fun a => a ≠ '|'))

/-- After a `|`, try to match `\s*travel_date_or_month:\s*[^|]+`, returning
the remainder after the whole match. -/
def travelSegTail (cs : List Char) : Option (List Char) :=
  if "travel_date_or_month:".data.isPrefixOf (cs.dropWhile Char.isWhitespace) then
    travelSegConsume
      ((cs.dropWhile Char.isWhitespace).drop "travel_date_or_month:".data.length)
  else none

lemma travelSegConsume_length_le (rest out : List Char)
    (h : travelSegConsume rest = some out) : out.length ≤ rest.length := by
  unfold travelSegConsume at h
  split at h
  · split at h
    · exact absurd h (by simp)
    · simp only [Option.some.injEq] at h
      subst h; simp
  · rename_i c cs heq
    split at h
    · split at h
      · exact absurd h (by simp)
      · simp only [Option.some.injEq] at h
        subst h
        calc (c :: cs).length = (rest.dropWhile Char.isWhitespace).length := by
              rw [heq]
          _ ≤ rest.length := (List.dropWhile_sublist _).length_le
    · simp only [Option.some.injEq] at h
      subst h
      calc ((c :: cs).dropWhile (fun a => a ≠ '|')).length
            ≤ (c :: cs).length := (List.dropWhile_sublist _).length_le
        _ = (rest.dropWhile Char.isWhitespace).length := by rw [heq]
        _ ≤ rest.length := (List.dropWhile_sublist _).length_le

lemma travelSegTail_length_le (cs out : List Char)
    (h : travelSegTail cs = some out) : out.length ≤ cs.length := by
  unfold travelSegTail at h
  split at h
  · have h1 := travelSegConsume_length_le _ _ h
    calc out.length ≤ ((cs.dropWhile Char.isWhitespace).drop
          "travel_date_or_month:".data.length).length := h1
      _ ≤ (cs.dropWhile Char.isWhitespace).length := (List.drop_sublist _ _).length_le
      _ ≤ cs.length := (List.dropWhile_sublist _).length_le
  · exact absurd h (by simp)

/-- `re.sub(r"\|\s*travel_date_or_month:\s*[^|]+", "", text, IGNORECASE)`:
delete every non-overlapping leftmost match, scanning left to right. -/
def removeTravelSeg : List Char → List Char
  | [] => []
  | c :: cs =>
    if c = '|' then
      match h : travelSegTail cs with
      | some rest =>
        have : rest.length < (c :: cs).length :=
          Nat.lt_of_le_of_lt (travelSegTail_length_le cs rest h)
            (by simp [List.length_cons])
        removeTravelSeg rest
      | none => c :: removeTravelSeg cs
    else c :: removeTravelSeg cs
termination_by l => l.length

/-- `re.sub(r"\s+", " ", text)`: collapse every whitespace run to one space. -/
def collapseWsGo (prevWs : Bool) : List Char → List Char
  | [] => []
  | c :: cs =>
    if Char.isWhitespace c then
      if prevWs then collapseWsGo true cs else ' ' :: collapseWsGo true cs
    else c :: collapseWsGo false cs

/-- Whitespace collapsing over a whole text. -/
def collapseWs (l : List Char) : List Char := collapseWsGo false l

/-- The `[a-zA-Z\s]` capture class of the destination patterns. -/
def isAlphaSpace (c : Char) : Bool := c.isAlpha || Char.isWhitespace c

/-- `re.search(lit + r"([a-zA-Z\s]+)", text)`: at the leftmost occurrence of
the literal followed by at least one class character, capture the maximal
class-character run. -/
def searchAlphaCap (lit : List Char) : List Char → Option (List Char)
  | [] => none
  | c :: cs =>
    if lit.isPrefixOf (c :: cs) then
      match (c :: cs).drop lit.length with
      | [] => searchAlphaCap lit cs
      | d :: ds =>
        if isAlphaSpace d then some ((d :: ds).takeWhile isAlphaSpace)
        else searchAlphaCap lit cs
    else searchAlphaCap lit cs

/-- The generic-destination blocklist of
`IntentParser._is_generic_destination_phrase`. -/
def genericTokens : List String :=
  ["place", "places", "destination", "somewhere", "anywhere", "sunny place",
   "warm place", "cold place"]

/-- `IntentParser._is_generic_destination_phrase(value)`. -/
def isGenericDestinationPhrase (value : List Char) : Bool :=
  let lowered := stripWsList (value.map Char.toLower)
  if genericTokens.contains (String.mk lowered) then true
  else
    hasSubstr lowered " place".data || hasSubstr lowered "destination".data
      || hasSubstr lowered "somewhere".data || hasSubstr lowered "anywhere".data

/-- Python `str.title()` on ASCII text: the first letter of every maximal
letter run is uppercased, the rest lowercased. -/
def pyTitleGo (prevCased : Bool) : List Char → List Char
  | [] => []
  | c :: cs =>
    if c.isAlpha then
      (if prevCased then c.toLower else c.toUpper) :: pyTitleGo true cs
    else c :: pyTitleGo false cs

/-- `candidate.title()`. -/
def pyTitle (l : List Char) : List Char := pyTitleGo false l

/-- Python `str.split()`: maximal non-whitespace runs. -/
def splitWsGo (cur : List Char) : List Char → List (List Char)
  | [] => if cur = [] then [] else [cur]
  | c :: cs =>
    if Char.isWhitespace c then
      if cur = [] then splitWsGo [] cs else cur :: splitWsGo [] cs
    else splitWsGo (cur ++ [c]) cs

/-- Word count for the bare-phrase fallback. -/
def splitWsWords (l : List Char) : List (List Char) := splitWsGo [] l

/-- Outcome of one destination pattern in the cascade: an early return (with
`None` for a blocked generic phrase) or a fall-through to the next pattern. -/
inductive DestPatOutcome where
  | ret (r : Option String)
  | next

/-- Post-processing of one freeform destination capture: strip `" ?.,"`,
remove month words, strip `" ,.-"`; a generic phrase aborts the whole cascade
with `None`, a phrase longer than two characters is returned title-cased, and
anything shorter falls through to the next pattern. -/
def processDestCandidate (cap : List Char) : DestPatOutcome :=
  let cand := stripSetChars [' ', '?', '.', ','] cap
  let cand := stripSetChars [' ', ',', '.', '-'] (removeMonths cand)
  if isGenericDestinationPhrase cand then .ret none
  else if 2 < cand.length then .ret (some (String.mk (pyTitle cand)))
  else .next

/-- One step of the `to`/`going to`/`in` pattern cascade. -/
def destFromPattern (lit : List Char) (cleaned : List Char) : DestPatOutcome :=
  match searchAlphaCap lit cleaned with
  | none => .next
  | some cap => processDestCandidate cap

/-- The bare-phrase fallback of `_extract_destination`: a non-empty cleaned
text of at most three words, all letters and spaces, that is not generic. -/
def destFallback (cleaned : List Char) : Option String :=
  let simple := stripSetChars [' ', '?', '.', ','] cleaned
  if simple ≠ [] ∧ (splitWsWords simple).length ≤ 3
      ∧ simple.all (fun ch => ch.isAlpha || Char.isWhitespace ch) then
    if isGenericDestinationPhrase simple then none
    else some (String.mk (pyTitle simple))
  else none

/-- `IntentParser._extract_destination(text)` (the argument is the lowered
user text). -/
def extractDestination (text : List Char) : Option String :=
  let cleaned := stripWsList (collapseWs (removeMonths (removeTravelSeg text)))
  match destFromPattern "to ".data cleaned with
  | .ret r => r
  | .next =>
    match destFromPattern "going to ".data cleaned with
    | .ret r => r
    | .next =>
      match destFromPattern "in ".data cleaned with
      | .ret r => r
      | .next => destFallback cleaned

/-- A month name starting at this position with a word boundary after it. -/
def monthPrefixAt (l : List Char) : Option String :=
  monthNames.findSome? fun m =>
    if m.data.isPrefixOf l then
      match l.drop m.data.length with
      | [] => some m
      | d :: _ => if isWordChar d then none else some m
    else none

/-- `re.search(r"\b(january|...|december)\b", lowered)`: scan left to right,
carrying whether the previous character is a word character (the leading `\b`
anchor). -/
def findMonthWordGo (prevIsWord : Bool) : List Char → Option String
  | [] => none
  | c :: cs =>
    if prevIsWord then findMonthWordGo (isWordChar c) cs
    else
      match monthPrefixAt (c :: cs) with
      | some m => some m
      | none => findMonthWordGo (isWordChar c) cs

/-- Exactly `n` digits from the front, with the remainder. -/
def takeDigits (n : Nat) (l : List Char) : Option (List Char × List Char) :=
  if (l.take n).length = n ∧ (l.take n).all Char.isDigit then
    some (l.take n, l.drop n)
  else none

/-- The `[dot slash dash]` separator class of the numeric date pattern. -/
def sepChar (c : Char) : Bool := c = '.' || c = '/' || c = '-'

/-- The trailing `\b` anchor: the next character, if any, is not a word
character. -/
def boundaryOk (l : List Char) : Bool :=
  match l with
  | [] => true
  | c :: _ => !(isWordChar c)

/-- `\d{n}` followed by the trailing `\b`. -/
def tryDigitGroup (n : Nat) (t : List Char) : Option (List Char) :=
  match takeDigits n t with
  | some (ds, rest) => if boundaryOk rest then some ds else none
  | none => none

/-- The greedy optional group `(?:[dot slash dash]\d{2,4})?` of the numeric date pattern,
then the trailing `\b`: try year lengths 4, 3, 2 in order, then no group. -/
def dateTailOpt (rest : List Char) : Option (List Char) :=
  let withGroup : Option (List Char) :=
    match rest with
    | s :: t =>
      if sepChar s then
        match tryDigitGroup 4 t with
        | some ds => some (s :: ds)
        | none =>
          match tryDigitGroup 3 t with
          | some ds => some (s :: ds)
          | none =>
            match tryDigitGroup 2 t with
            | some ds => some (s :: ds)
            | none => none
      else none
    | [] => none
  match withGroup with
  | some x => some x
  | none => if boundaryOk rest then some [] else none

/-- `\d{1,2}` (with `n` already chosen) then `[dot slash dash]` then the day/tail part of
the numeric date pattern. -/
def tryDateD1 (n : Nat) (l : List Char) : Option (List Char) :=
  match takeDigits n l with
  | some (d1, r1) =>
    match r1 with
    | s :: t =>
      if sepChar s then
        match takeDigits 2 t with
        | some (d2, r2) =>
          match dateTailOpt r2 with
          | some tail => some (d1 ++ s :: (d2 ++ tail))
          | none =>
            match takeDigits 1 t with
            | some (d2, r2) => (dateTailOpt r2).map fun tail => d1 ++ s :: (d2 ++ tail)
            | none => none
        | none =>
          match takeDigits 1 t with
          | some (d2, r2) => (dateTailOpt r2).map fun tail => d1 ++ s :: (d2 ++ tail)
          | none => none
      else none
    | [] => none
  | none => none

/-- A match of `\d{1,2}[dot slash dash]\d{1,2}(?:[dot slash dash]\d{2,4})?\b` at this position,
trying the greedy two-digit day/month first and backtracking to one digit. -/
def digitDateAt (l : List Char) : Option (List Char) :=
  match tryDateD1 2 l with
  | some x => some x
  | none => tryDateD1 1 l

/-- `re.search(r"\b\d{1,2}[dot slash dash]\d{1,2}(?:[dot slash dash]\d{2,4})?\b", text)`: scan left
to right with the leading `\b` anchor. -/
def findDigitDateGo (prevIsWord : Bool) : List Char → Option String
  | [] => none
  | c :: cs =>
    if prevIsWord then findDigitDateGo (isWordChar c) cs
    else
      match digitDateAt (c :: cs) with
      | some lex => some (String.mk lex)
      | none => findDigitDateGo (isWordChar c) cs

/-- `IntentParser._extract_date_or_month(text)`: a month word in the lowered
text, else the numeric date pattern on the original text. -/
def extractDateOrMonth (text : List Char) : Option String :=
  match findMonthWordGo false (text.map Char.toLower) with
  | some m => some m
  | none => findDigitDateGo false text

/-- A match of `(\d+(?:\.\d+)?)\s*hour` starting at this position: greedy
digits, a greedy optional fraction that backtracks to no fraction, whitespace,
then the literal `hour`; returns the group-1 capture. -/
def maxHoursAt (l : List Char) : Option (List Char) :=
  let ds := l.takeWhile Char.isDigit
  if ds = [] then none
  else
    let withFrac : Option (List Char) :=
      match l.drop ds.length with
      | '.' :: t =>
        let fs := t.takeWhile Char.isDigit
        if fs = [] then none
        else if "hour".data.isPrefixOf
            ((t.drop fs.length).dropWhile Char.isWhitespace) then
          some (ds ++ '.' :: fs)
        else none
      | _ => none
    match withFrac with
    | some cap => some cap
    | none =>
      if "hour".data.isPrefixOf
          ((l.drop ds.length).dropWhile Char.isWhitespace) then some ds
      else none

/-- `IntentParser._extract_max_flight_hours(text)`:
`re.search(r"(\d+(?:\.\d+)?)\s*hour", text)`, then `float(group(1))`. -/
def extractMaxFlightHoursGo : List Char → Option ℚ
  | [] => none
  | c :: cs =>
    match maxHoursAt (c :: cs) with
    | some cap => parsePyFloat (String.mk cap)
    | none => extractMaxFlightHoursGo cs

/-- `IntentParser._has_no_limit_phrase(text)`. -/
def hasNoLimitPhrase (l : List Char) : Bool :=
  hasSubstr l "no limit".data || hasSubstr l "without limit".data
    || hasSubstr l "without duration limitation".data
    || hasSubstr l "without duration limit".data
    || hasSubstr l "no duration limit".data
    || hasSubstr l "no flight limit".data
    || hasSubstr l "without flight limit".data

/-- `IntentParser._extract_weather_preference_from_query(text)`. -/
def extractWeatherPreference (text : List Char) : Option String :=
  let lowered := text.map Char.toLower
  if hasSubstr lowered "cold place".data || hasSubstr lowered "cold places".data
      || hasSubstr lowered "cold weather".data then some "cold"
  else if hasSubstr lowered "warm place".data || hasSubstr lowered "warm places".data
      || hasSubstr lowered "warm weather".data then some "warm"
  else if hasSubstr lowered "mild weather".data || hasSubstr lowered "mild place".data
      || hasSubstr lowered "mild places".data then some "mild"
  else none

/-- `IntentParser._infer_intent(lowered, destination, activity, max_hours)`.
Note that the Python code tests `activity is not None`, and that
`"within" in lowered and "hour" in lowered` binds tighter than the
surrounding `or`s. -/
def inferIntent (lowered : List Char) (destination activity : Option String)
    (max_hours : Option ℚ) : String :=
  if activity.isSome then "activity_based_discovery"
  else
    let asks_discovery :=
      hasSubstr lowered "where should i go".data || hasSubstr lowered "where to go".data
        || hasSubstr lowered "recommend destination".data
        || hasSubstr lowered "places to go".data
        || hasSubstr lowered "offer me places".data
        || hasSubstr lowered "sunny place".data
        || hasSubstr lowered "warm place".data
    let has_constraint :=
      max_hours.isSome || hasSubstr lowered "not more than".data
        || hasSubstr lowered "max flight".data
        || (hasSubstr lowered "within".data && hasSubstr lowered "hour".data)
    if asks_discovery || (has_constraint && destination.isNone) then
      "constraint_based_discovery"
    else "destination_opinion"

/-- `IntentParser._parse_with_rules(text)` — the deterministic rule-based
parse.  (The Python function also computes `query_weather` on line 61 and
never uses it; that dead binding is omitted.) -/
def parseWithRules (text : String) : ParsedIntent :=
  let lowered := text.data.map Char.toLower
  let explicit := extractExplicitSlots lowered
  let activity := pyOrStr explicit.activity
    (if hasSubstr lowered "ski".data then some "skiing" else none)
  let destination := pyOrStr explicit.destination (extractDestination lowered)
  let date_or_month := pyOrStr explicit.travel_date_or_month
    (extractDateOrMonth text.data)
  let max_hours0 :=
    match explicit.max_flight_hours with
    | some v => some v
    | none => extractMaxFlightHoursGo lowered
  let max_hours := if hasNoLimitPhrase lowered then some (-1) else max_hours0
  { intent := inferIntent lowered destination activity max_hours
    destination := destination
    activity := activity
    travel_date_or_month := date_or_month
    max_flight_hours := max_hours
    raw_text := text }

/-!
## Claims about the rule-based parse

Supporting lemmas about `searchTagged` on texts of the clarification-tag
shape `<freeform> destination: X | activity: Y`.
-/

lemma isPrefixOf_cons_ne (x : Char) (xs : List Char) (c : Char) (cs : List Char)
    (h : x ≠ c) : (x :: xs).isPrefixOf (c :: cs) = false := by
  simp [List.isPrefixOf, beq_eq_false_iff_ne.mpr h]

lemma searchTagged_cons_skip (lit : List Char) (c : Char) (cs : List Char)
    (h : lit.isPrefixOf (c :: cs) = false) :
    searchTagged lit (c :: cs) = searchTagged lit cs := by
  simp only [searchTagged, h, Bool.false_eq_true, if_false]

lemma not_isPrefixOf_of_get_ne (l1 l2 : List Char) (i : Nat) (h1 : i < l1.length)
    (h2 : i < l2.length) (hne : l1.get ⟨i, h1⟩ ≠ l2.get ⟨i, h2⟩) :
    l1.isPrefixOf l2 = false := by
  cases hp : l1.isPrefixOf l2
  · rfl
  · exfalso
    obtain ⟨t, ht⟩ := List.isPrefixOf_iff_prefix.mp hp
    apply hne
    subst ht
    rw [List.get_append i h1]

/-- A search skips over any segment at which no match can start. -/
lemma searchTagged_append_of_no_match (lit seg rest : List Char)
    (h : ∀ i, i < seg.length → lit.isPrefixOf ((seg ++ rest).drop i) = false) :
    searchTagged lit (seg ++ rest) = searchTagged lit rest := by
  induction seg with
  | nil => rfl
  | cons c cs ih =>
    have h0 : lit.isPrefixOf (c :: (cs ++ rest)) = false := by
      have := h 0 (by simp)
      simpa using this
    rw [List.cons_append, searchTagged_cons_skip _ _ _ h0]
    exact ih (fun i hi => by
      have := h (i + 1) (by simp only [List.length_cons]; omega)
      simpa using this)

/-- A search skips over any segment avoiding the pattern's first character. -/
lemma searchTagged_skip_front (lit : List Char) (x : Char) (hx : lit.head? = some x)
    (pre rest : List Char) (hpre : ∀ c ∈ pre, c ≠ x) :
    searchTagged lit (pre ++ rest) = searchTagged lit rest := by
  cases lit with
  | nil => simp at hx
  | cons a as =>
    have ha : a = x := by simpa using hx
    induction pre with
    | nil => rfl
    | cons c p ih =>
      rw [List.cons_append, searchTagged_cons_skip _ _ _
        (isPrefixOf_cons_ne a as c _
          (fun he => hpre c (List.mem_cons_self c p) (he.symm.trans ha)))]
      exact ih (fun b hb => hpre b (List.mem_cons_of_mem c hb))

lemma isLower_ne (c ch : Char) (hc : c.isLower = true) (hch : ch.isLower = false) :
    c ≠ ch := by
  intro he; subst he; rw [hc] at hch; exact absurd hch (by simp)

lemma isLower_isWhitespace_false (c : Char) (h : c.isLower = true) :
    c.isWhitespace = false := by
  cases hw : c.isWhitespace
  · rfl
  · exfalso
    simp only [Char.isWhitespace, Bool.or_eq_true, decide_eq_true_eq] at hw
    rcases hw with ((h1 | h1) | h1) | h1 <;> subst h1 <;> simp at h

/-- While searching for `activity:` inside a lowercase word, no match can
start: either the pattern's colon would land on a letter, or one of its
letters would land on the following space. -/
lemma searchTagged_skip_word (X R : List Char) (hX : ∀ c ∈ X, c.isLower = true) :
    searchTagged "activity:".data (X ++ (' ' :: R))
      = searchTagged "activity:".data (' ' :: R) := by
  apply searchTagged_append_of_no_match
  intro i hi
  rw [List.drop_append_of_le_length (Nat.le_of_lt hi)]
  by_cases hcase : i + 9 ≤ X.length
  · have h8 : 8 < (X.drop i).length := by
      rw [List.length_drop]; omega
    have h8' : 8 < ((X.drop i) ++ (' ' :: R)).length := by
      rw [List.length_append]; omega
    apply not_isPrefixOf_of_get_ne _ _ 8 (by decide) h8'
    have hmem : ((X.drop i) ++ (' ' :: R)).get ⟨8, h8'⟩ ∈ X := by
      rw [List.get_append 8 h8]
      exact List.drop_subset i X (List.get_mem _ _ _)
    have hlow : (((X.drop i) ++ (' ' :: R)).get ⟨8, h8'⟩).isLower = true := hX _ hmem
    rw [show ("activity:".data.get ⟨8, by decide⟩) = ':' from rfl]
    exact (isLower_ne _ ':' hlow (by decide)).symm
  · set k := X.length - i with hk
    have hk9 : k < 9 := by omega
    have hk1 : 1 ≤ k := by omega
    have hklen : k = (X.drop i).length := by rw [List.length_drop]
    have hklt : k < ((X.drop i) ++ (' ' :: R)).length := by
      rw [List.length_append]; simp only [List.length_cons]; omega
    have hlit9 : k < "activity:".data.length := by
      rw [show "activity:".data.length = 9 from rfl]; exact hk9
    apply not_isPrefixOf_of_get_ne _ _ k hlit9 hklt
    have hget : ((X.drop i) ++ (' ' :: R)).get ⟨k, hklt⟩ = ' ' := by
      rw [List.get_eq_getElem]
      simp only [Fin.val_mk]
      rw [List.getElem_append_right (le_of_eq hklen.symm)]
      simp [hklen.symm]
    rw [hget]
    have hno : ∀ j, (hj : j < 9) → "activity:".data.get ⟨j, hj⟩ ≠ ' ' := by decide
    exact hno k hk9

/-- While searching for `activity:` inside `destination: `, no match can
start. -/
lemma searchTagged_activity_skip_dtag (R : List Char) :
    searchTagged "activity:".data ("destination: ".data ++ R)
      = searchTagged "activity:".data R := by
  apply searchTagged_append_of_no_match
  intro i hi
  rw [show ("destination: ".data.length) = 13 from rfl] at hi
  interval_cases i <;>
    first
      | exact isPrefixOf_cons_ne 'a' _ _ _ (by decide)
      | (rw [show (("destination: ".data ++ R).drop 6) = 'a' :: 't' :: ("ion: ".data ++ R)
            from rfl]
         simp [List.isPrefixOf])

lemma searchTagged_activity_sep_skip (R : List Char) :
    searchTagged "activity:".data (' ' :: '|' :: ' ' :: R)
      = searchTagged "activity:".data R := by
  rw [searchTagged_cons_skip _ _ _ (isPrefixOf_cons_ne 'a' _ ' ' _ (by decide)),
    searchTagged_cons_skip _ _ _ (isPrefixOf_cons_ne 'a' _ '|' _ (by decide)),
    searchTagged_cons_skip _ _ _ (isPrefixOf_cons_ne 'a' _ ' ' _ (by decide))]

lemma searchTagged_cons_hit (lit : List Char) (c : Char) (cs : List Char) (cap : List Char)
    (hpre : lit.isPrefixOf (c :: cs) = true)
    (htail : tagValueTail ((c :: cs).drop lit.length) = some cap) :
    searchTagged lit (c :: cs) = some cap := by
  simp only [searchTagged, hpre, if_true, htail]

lemma searchTagged_dtag_hit (R cap : List Char)
    (htail : tagValueTail (' ' :: R) = some cap) :
    searchTagged "destination:".data ("destination: ".data ++ R) = some cap := by
  rw [show ("destination: ".data ++ R) = 'd' :: ("estination: ".data ++ R) from rfl]
  exact searchTagged_cons_hit _ _ _ _ rfl htail

lemma searchTagged_atag_hit (R cap : List Char)
    (htail : tagValueTail (' ' :: R) = some cap) :
    searchTagged "activity:".data ("activity: ".data ++ R) = some cap := by
  rw [show ("activity: ".data ++ R) = 'a' :: ("ctivity: ".data ++ R) from rfl]
  exact searchTagged_cons_hit _ _ _ _ rfl htail

lemma takeWhile_append_all (p : Char → Bool) (l1 l2 : List Char)
    (h : ∀ c ∈ l1, p c = true) :
    (l1 ++ l2).takeWhile p = l1 ++ l2.takeWhile p := by
  induction l1 with
  | nil => rfl
  | cons c cs ih =>
    rw [List.cons_append, List.takeWhile_cons, h c (List.mem_cons_self c cs),
      ih (fun a ha => h a (List.mem_cons_of_mem c ha))]
    rfl

lemma takeWhile_all (p : Char → Bool) (l : List Char) (h : ∀ c ∈ l, p c = true) :
    l.takeWhile p = l := by
  have := takeWhile_append_all p l [] h
  simpa using this

/-- The value tail after `destination:` captures the word plus the space
before the following `|`. -/
lemma tagValueTail_space_word (X t : List Char) (hne : X ≠ [])
    (hX : ∀ c ∈ X, c.isLower = true) :
    tagValueTail (' ' :: (X ++ (' ' :: '|' :: t))) = some (X ++ [' ']) := by
  obtain ⟨x, xs, rfl⟩ : ∃ x xs, X = x :: xs := by
    cases X with
    | nil => exact absurd rfl hne
    | cons x xs => exact ⟨x, xs, rfl⟩
  have hx : x.isLower = true := hX x (List.mem_cons_self x xs)
  have hdw : ((' ' :: (x :: xs ++ (' ' :: '|' :: t))).dropWhile Char.isWhitespace)
      = x :: (xs ++ (' ' :: '|' :: t)) := by
    rw [List.dropWhile_cons, if_pos (by decide)]
    rw [List.cons_append, List.dropWhile_cons,
      if_neg (by simp [isLower_isWhitespace_false x hx])]
  have htw : ((x :: (xs ++ (' ' :: '|' :: t))).takeWhile (fun a => a ≠ '|'))
      = (x :: xs) ++ [' '] := by
    rw [show x :: (xs ++ (' ' :: '|' :: t)) = (x :: xs) ++ (' ' :: '|' :: t) from by simp]
    rw [takeWhile_append_all _ _ _
      (fun c hc => decide_eq_true (isLower_ne c '|' (hX c hc) (by decide)))]
    simp [List.takeWhile_cons]
  simp only [tagValueTail, hdw]
  rw [if_neg (isLower_ne x '|' hx (by decide)), htw]

/-- The value tail after `activity:` at the end of the text captures the
word. -/
lemma tagValueTail_space_word_end (Y : List Char) (hne : Y ≠ [])
    (hY : ∀ c ∈ Y, c.isLower = true) :
    tagValueTail (' ' :: Y) = some Y := by
  obtain ⟨y, ys, rfl⟩ : ∃ y ys, Y = y :: ys := by
    cases Y with
    | nil => exact absurd rfl hne
    | cons y ys => exact ⟨y, ys, rfl⟩
  have hy : y.isLower = true := hY y (List.mem_cons_self y ys)
  have hdw : ((' ' :: (y :: ys)).dropWhile Char.isWhitespace) = y :: ys := by
    rw [List.dropWhile_cons, if_pos (by decide), List.dropWhile_cons,
      if_neg (by simp [isLower_isWhitespace_false y hy])]
  simp only [tagValueTail, hdw]
  rw [if_neg (isLower_ne y '|' hy (by decide)),
    takeWhile_all _ _ (fun c hc => decide_eq_true (isLower_ne c '|' (hY c hc) (by decide)))]

lemma stripChar_contains_false (c : Char) (h : c.isLower = true) :
    ([' ', '.', ',', '?'].contains c) = false := by
  have h1 : (c == ' ') = false := beq_eq_false_iff_ne.mpr (isLower_ne c ' ' h (by decide))
  have h2 : (c == '.') = false := beq_eq_false_iff_ne.mpr (isLower_ne c '.' h (by decide))
  have h3 : (c == ',') = false := beq_eq_false_iff_ne.mpr (isLower_ne c ',' h (by decide))
  have h4 : (c == '?') = false := beq_eq_false_iff_ne.mpr (isLower_ne c '?' h (by decide))
  simp [List.contains, List.elem, h1, h2, h3, h4]

lemma dropWhile_eq_self_of_all (p : Char → Bool) (l : List Char)
    (h : ∀ c ∈ l, p c = false) : l.dropWhile p = l := by
  cases l with
  | nil => rfl
  | cons x xs =>
    rw [List.dropWhile_cons, if_neg]
    intro hcon
    rw [h x (List.mem_cons_self x xs)] at hcon
    exact Bool.noConfusion hcon

lemma tagStrip_word_space (X : List Char) (hne : X ≠ [])
    (hX : ∀ c ∈ X, c.isLower = true) :
    tagStrip (X ++ [' ']) = X := by
  obtain ⟨x, xs, rfl⟩ : ∃ x xs, X = x :: xs := by
    cases X with
    | nil => exact absurd rfl hne
    | cons x xs => exact ⟨x, xs, rfl⟩
  have hall : ∀ c ∈ (x :: xs), ([' ', '.', ',', '?'].contains c) = false :=
    fun c hc => stripChar_contains_false c (hX c hc)
  unfold tagStrip stripSetChars
  rw [List.cons_append, List.dropWhile_cons, if_neg (by
    intro hcon
    rw [hall x (List.mem_cons_self x xs)] at hcon
    exact Bool.noConfusion hcon)]
  rw [show (x :: (xs ++ [' '])).reverse = ' ' :: (xs.reverse ++ [x]) from by simp]
  rw [List.dropWhile_cons, if_pos (by decide)]
  rw [dropWhile_eq_self_of_all _ _ (by
    intro c hc
    apply hall
    rcases List.mem_append.mp hc with h1 | h1
    · exact List.mem_cons_of_mem x (List.mem_reverse.mp h1)
    · rw [List.mem_singleton.mp h1]
      exact List.mem_cons_self x xs)]
  simp

lemma tagStrip_word (X : List Char) (hX : ∀ c ∈ X, c.isLower = true) :
    tagStrip X = X := by
  have hall : ∀ c ∈ X, ([' ', '.', ',', '?'].contains c) = false :=
    fun c hc => stripChar_contains_false c (hX c hc)
  unfold tagStrip stripSetChars
  rw [dropWhile_eq_self_of_all _ _ hall,
    dropWhile_eq_self_of_all _ _ (fun c hc => hall c (List.mem_reverse.mp hc))]
  simp

lemma map_toLower_fixed (l : List Char) (h : ∀ c ∈ l, c.isLower = true) :
    l.map Char.toLower = l := by
  induction l with
  | nil => rfl
  | cons c cs ih =>
    have hc : c.isLower = true := h c (List.mem_cons_self c cs)
    have hlow : c.toLower = c := by
      simp only [Char.isLower, Bool.and_eq_true, decide_eq_true_eq] at hc
      simp only [Char.toLower, Char.toNat]
      rw [if_neg]
      intro hcon
      have hv : (97 : UInt32) ≤ c.val := hc.1
      have : 97 ≤ c.val.toNat := by exact_mod_cast hv
      omega
    rw [List.map_cons, hlow, ih (fun a ha => h a (List.mem_cons_of_mem c ha))]

/-- On a text of the clarification shape, `_extract_explicit_slots` extracts
exactly the two tag values. -/
lemma extractExplicitSlots_tagged (pre X Y : List Char)
    (hpre : ∀ c ∈ pre, c ≠ 'd' ∧ c ≠ 'a')
    (hX : X ≠ []) (hXl : ∀ c ∈ X, c.isLower = true)
    (hY : Y ≠ []) (hYl : ∀ c ∈ Y, c.isLower = true) :
    (extractExplicitSlots (pre ++ ("destination: ".data
        ++ (X ++ (" | activity: ".data ++ Y))))).destination = some (String.mk X)
    ∧ (extractExplicitSlots (pre ++ ("destination: ".data
        ++ (X ++ (" | activity: ".data ++ Y))))).activity = some (String.mk Y) := by
  constructor
  · show (searchTagged "destination:".data _).map (fun cap => String.mk (tagStrip cap))
      = some (String.mk X)
    rw [searchTagged_skip_front "destination:".data 'd' rfl _ _
      (fun c hc => (hpre c hc).1)]
    rw [show (X ++ (" | activity: ".data ++ Y))
      = X ++ (' ' :: '|' :: (' ' :: ("activity: ".data ++ Y))) from rfl]
    rw [searchTagged_dtag_hit _ _ (tagValueTail_space_word X _ hX hXl)]
    show some (String.mk (tagStrip (X ++ [' ']))) = some (String.mk X)
    rw [tagStrip_word_space X hX hXl]
  · show (searchTagged "activity:".data _).map (fun cap => String.mk (tagStrip cap))
      = some (String.mk Y)
    rw [searchTagged_skip_front "activity:".data 'a' rfl _ _
      (fun c hc => (hpre c hc).2)]
    rw [searchTagged_activity_skip_dtag]
    rw [show (X ++ (" | activity: ".data ++ Y))
      = X ++ (' ' :: ('|' :: ' ' :: ("activity: ".data ++ Y))) from rfl]
    rw [searchTagged_skip_word X _ hXl]
    rw [searchTagged_activity_sep_skip]
    rw [searchTagged_atag_hit _ _ (tagValueTail_space_word_end Y hY hYl)]
    show some (String.mk (tagStrip Y)) = some (String.mk Y)
    rw [tagStrip_word Y hYl]

/-- C6 fails as stated: `_parse_with_rules` lowercases the whole text before
extracting the explicit slots, so for the tag sequence
`destination: Paris | activity: Hiking` it extracts `"paris"` and
`"hiking"` — not the values `"Paris"` and `"Hiking"` exactly as written. -/
theorem C6_counterexample :
    (parseWithRules "destination: Paris | activity: Hiking").destination = some "paris"
      ∧ (parseWithRules "destination: Paris | activity: Hiking").destination ≠ some "Paris"
      ∧ (parseWithRules "destination: Paris | activity: Hiking").activity = some "hiking"
      ∧ (parseWithRules "destination: Paris | activity: Hiking").activity ≠ some "Hiking" := by
  refine ⟨rfl, ?_, rfl, ?_⟩ <;> decide

/-- C6 amended: on a text of the clarification shape
`<freeform> destination: X | activity: Y`, the rule-based parse extracts the
lowercased tag values; when `X` and `Y` are already-lowercase alphabetic words
it extracts `destination = X` and `activity = Y` exactly, and the tagged
values take precedence over any freeform pattern match in the preceding text
(the freeform prefix may contain `to ...`/`in ...` phrases; it only must not
contain the letters `d` or `a`, which would create an earlier tag-pattern
candidate).  Mixed-case tag values come back lowercased, as the
counterexample shows. -/
theorem C6_tagged_slots_amended (pre X Y : List Char)
    (hpre : ∀ c ∈ pre, Char.toLower c ≠ 'd' ∧ Char.toLower c ≠ 'a')
    (hX : X ≠ []) (hXl : ∀ c ∈ X, c.isLower = true)
    (hY : Y ≠ []) (hYl : ∀ c ∈ Y, c.isLower = true) :
    (parseWithRules (String.mk (pre ++ ("destination: ".data
        ++ (X ++ (" | activity: ".data ++ Y)))))).destination = some (String.mk X)
      ∧ (parseWithRules (String.mk (pre ++ ("destination: ".data
        ++ (X ++ (" | activity: ".data ++ Y)))))).activity = some (String.mk Y) := by
  have hmap : (pre ++ ("destination: ".data ++ (X ++ (" | activity: ".data ++ Y)))).map
      Char.toLower
      = (pre.map Char.toLower) ++ ("destination: ".data
        ++ (X ++ (" | activity: ".data ++ Y))) := by
    simp only [List.map_append]
    rw [map_toLower_fixed X hXl, map_toLower_fixed Y hYl,
      show "destination: ".data.map Char.toLower = "destination: ".data from by decide,
      show " | activity: ".data.map Char.toLower = " | activity: ".data from by decide]
  have hpre' : ∀ c ∈ pre.map Char.toLower, c ≠ 'd' ∧ c ≠ 'a' := by
    intro c hc
    obtain ⟨b, hb, rfl⟩ := List.mem_map.mp hc
    exact hpre b hb
  obtain ⟨hD, hA⟩ := extractExplicitSlots_tagged (pre.map Char.toLower) X Y hpre' hX hXl hY hYl
  have hXne : (String.mk X == "") = false :=
    beq_eq_false_iff_ne.mpr (fun h => hX (congrArg String.data h))
  have hYne : (String.mk Y == "") = false :=
    beq_eq_false_iff_ne.mpr (fun h => hY (congrArg String.data h))
  constructor
  · show pyOrStr (extractExplicitSlots ((pre ++ ("destination: ".data
        ++ (X ++ (" | activity: ".data ++ Y)))).map Char.toLower)).destination
        (extractDestination ((pre ++ ("destination: ".data
        ++ (X ++ (" | activity: ".data ++ Y)))).map Char.toLower))
      = some (String.mk X)
    rw [hmap, hD]
    simp only [pyOrStr]
    rw [if_neg (by rw [hXne]; exact Bool.noConfusion)]
  · show pyOrStr (extractExplicitSlots ((pre ++ ("destination: ".data
        ++ (X ++ (" | activity: ".data ++ Y)))).map Char.toLower)).activity
        (if hasSubstr ((pre ++ ("destination: ".data
          ++ (X ++ (" | activity: ".data ++ Y)))).map Char.toLower) "ski".data
         then some "skiing" else none)
      = some (String.mk Y)
    rw [hmap, hA]
    simp only [pyOrStr]
    rw [if_neg (by rw [hYne]; exact Bool.noConfusion)]

/-- Witness for C6 at a concrete clarification round-trip text whose freeform
prefix contains a `to rome` phrase that the tags override. -/
theorem C6_witness :
    (parseWithRules (String.mk ("go to rome ".data ++ ("destination: ".data
        ++ ("paris".data ++ (" | activity: ".data ++ "hiking".data)))))).destination
      = some "paris"
      ∧ (parseWithRules (String.mk ("go to rome ".data ++ ("destination: ".data
        ++ ("paris".data ++ (" | activity: ".data ++ "hiking".data)))))).activity
      = some "hiking" := by
  have h := C6_tagged_slots_amended "go to rome ".data "paris".data "hiking".data
    (by decide) (by decide) (by decide) (by decide) (by decide)
  exact ⟨h.1, h.2⟩

/-- The spec-side reading of C7's "the word `ski` appears": an occurrence of
`ski` not adjacent to any other letter. -/
def containsWordGo (w : List Char) (prevIsAlpha : Bool) : List Char → Bool
  | [] => false
  | c :: cs =>
    (!prevIsAlpha && w.isPrefixOf (c :: cs)
        && (match (c :: cs).drop w.length with
            | [] => true
            | d :: _ => !d.isAlpha))
      || containsWordGo w c.isAlpha cs

/-- Does `w` occur in `l` as a whole word (boundaries at non-letters)? -/
def containsWord (w l : List Char) : Bool := containsWordGo w false l

/-- C7 fails as stated: the code tests `"ski" in lowered`, a plain substring
check, so the text `im asking about crete` — where `ski` occurs only inside
the word `asking` — still sets `activity = "skiing"` although the word `ski`
does not appear. -/
theorem C7_counterexample :
    (parseWithRules "im asking about crete").activity = some "skiing"
      ∧ containsWord "ski".data "im asking about crete".data = false := by
  exact ⟨rfl, by decide⟩

/-- C7 amended: for every text without a truthy explicit `activity:` tag, the
rule-based parse assigns `activity = "skiing"` if and only if `ski` occurs as
a substring (not necessarily as a whole word) of the lowercased text. -/
theorem C7_ski_substring_amended (t : String)
    (h : pyTruthyS (extractExplicitSlots (t.data.map Char.toLower)).activity = false) :
    (parseWithRules t).activity = some "skiing"
      ↔ hasSubstr (t.data.map Char.toLower) "ski".data = true := by
  have hval : (parseWithRules t).activity
      = pyOrStr (extractExplicitSlots (t.data.map Char.toLower)).activity
        (if hasSubstr (t.data.map Char.toLower) "ski".data then some "skiing" else none) :=
    rfl
  rw [hval]
  have hbranch : pyOrStr (extractExplicitSlots (t.data.map Char.toLower)).activity
      (if hasSubstr (t.data.map Char.toLower) "ski".data then some "skiing" else none)
      = (if hasSubstr (t.data.map Char.toLower) "ski".data then some "skiing" else none) := by
    cases hact : (extractExplicitSlots (t.data.map Char.toLower)).activity with
    | none => rfl
    | some a =>
      rw [hact] at h
      simp only [pyTruthyS, Bool.not_eq_false'] at h
      simp only [pyOrStr]
      rw [if_pos h]
  rw [hbranch]
  by_cases hski : hasSubstr (t.data.map Char.toLower) "ski".data = true
  · rw [if_pos hski]
    exact iff_of_true rfl hski
  · rw [if_neg hski]
    constructor
    · intro hcon; exact absurd hcon (by simp)
    · intro hcon; exact absurd hcon hski

/-- Witness for C7 at a concrete text with no `activity:` tag. -/
theorem C7_witness :
    (parseWithRules "lets go ski in france").activity = some "skiing"
      ↔ hasSubstr ("lets go ski in france".data.map Char.toLower) "ski".data = true :=
  C7_ski_substring_amended "lets go ski in france" (by decide)

end LocationRecommender
